import Mathlib

/-!
Shallow embedding of the memory benchmark core
(`src/memory_benchmark.cpp`, `core/include/memory_benchmark.h`).

Modelling conventions:
* `std::size_t` values become `ℕ`; `std::int64_t` latencies become `ℤ`.
* C++ `double` arithmetic is modelled by exact rational arithmetic `ℚ`,
  except the standard deviation, which involves a square root and is
  therefore modelled in `ℝ` via `Real.sqrt`.
* The memory buffer (`std::uint8_t*` plus a size) becomes a `List ℕ` of
  byte values together with an explicit size argument; in-place mutation
  becomes explicit state passing (each mutating routine returns the new
  buffer contents).
* The monotonic `Timer` is an environment input: the per-cycle latencies
  observed by `verify_cycle` are an oracle `lat : ℕ → ℤ` (latency of the
  i-th cycle, in nanoseconds), the total-timer reading of a run is an
  oracle value `elapsed_seconds : ℚ`, and in continuous mode the
  continuous timer read at the k-th loop-boundary check is `nsAt k`
  nanoseconds (the `steady_clock` resolution of `Timer`).
* The unbounded `while (should_continue)` loop of `run_continuous`
  becomes a fuel-indexed recursion `contLoop`; the `Bool` in its result
  is `true` exactly when the loop exited through one of its own stopping
  conditions (rather than exhausting the fuel).
-/

namespace MemoryBenchmark

/-- `MemoryBenchmark::TimingStats` (core/include/memory_benchmark.h). -/
structure TimingStats where
  min_latency_ns : ℚ
  max_latency_ns : ℚ
  avg_latency_ns : ℚ
  total_time_seconds : ℚ
  variance_ns : ℚ
  std_deviation_ns : ℝ
  sample_count : ℕ

/-- `MemoryBenchmark::Results` (core/include/memory_benchmark.h). -/
structure Results where
  buffer_size_bytes : ℕ
  iterations : ℕ
  timing : TimingStats
  throughput_mbps : ℚ
  verification_passed : Bool
  verification_errors : ℕ

/-- The value-initialized `Results results{};` used by the early returns of
`MemoryBenchmark::run`: every numeric field is zero and the `bool` field
`verification_passed` is zero-initialized, i.e. `false`. -/
def Results.zeroed : Results :=
  { buffer_size_bytes := 0
    iterations := 0
    timing := { min_latency_ns := 0, max_latency_ns := 0, avg_latency_ns := 0,
                total_time_seconds := 0, variance_ns := 0, std_deviation_ns := 0,
                sample_count := 0 }
    throughput_mbps := 0
    verification_passed := false
    verification_errors := 0 }

/-- `MemoryBenchmark::write_pattern` (memory_benchmark.cpp:301-310): writes
`buffer[i] = static_cast<uint8_t>(i & 0xFF)` for every `i < size`, leaving
bytes beyond `size` (if any) untouched. Modelled functionally: the result
is the new buffer contents. -/
def write_pattern (buffer : List ℕ) (size : ℕ) : List ℕ :=
  (List.range buffer.length).map
    (fun i => if i < size then i &&& 0xFF else buffer.getD i 0)

/-- `MemoryBenchmark::verify_pattern` (memory_benchmark.cpp:312-327): counts
the indices `i < size` at which `buffer[i]` differs from the expected byte
`static_cast<uint8_t>(i & 0xFF)`. -/
def verify_pattern (buffer : List ℕ) (size : ℕ) : ℕ :=
  ((List.range size).filter (fun i => buffer.getD i 0 ≠ i &&& 0xFF)).length

/-- `MemoryBenchmark::verify_cycle` (memory_benchmark.cpp:273-299): the
initial read pass only XOR-accumulates into a discarded `volatile` value
(an optimizer barrier with no effect on the returned data), then the
pattern is written and verified. Returns the error count together with
the buffer contents after the cycle; the cycle latency is an environment
input of the caller and is not produced here. -/
def verify_cycle (buffer : List ℕ) (size : ℕ) : ℕ × List ℕ :=
  let written := write_pattern buffer size
  (verify_pattern written size, written)

/-- The `for (i = 0; i < iterations; ++i)` cycle loop of
`MemoryBenchmark::run_with_buffer` (memory_benchmark.cpp:67-88), restricted
to its effect on the buffer and the accumulated error count
`total_errors`. -/
def run_cycles (size : ℕ) : ℕ → List ℕ → ℕ × List ℕ
  | 0, buffer => (0, buffer)
  | n + 1, buffer =>
    let c := verify_cycle buffer size
    let rest := run_cycles size n c.2
    (c.1 + rest.1, rest.2)

/-- The sequence of per-cycle latencies observed by the cycle loop of
`run_with_buffer` (the successive `cycle_latency_ns` out-values of
`verify_cycle`), as provided by the timing environment `lat`. -/
def latencyList (iterations : ℕ) (lat : ℕ → ℤ) : List ℤ :=
  (List.range iterations).map lat

/-- The incremental minimum tracker of `run_with_buffer`
(memory_benchmark.cpp:58-85): seeded with the first latency, folded with
`min` over the rest; `0` when there is no iteration. -/
def minLatency : List ℤ → ℤ
  | [] => 0
  | x :: xs => xs.foldl min x

/-- The incremental maximum tracker of `run_with_buffer`
(memory_benchmark.cpp:59-85): seeded with the first latency, folded with
`max` over the rest; `0` when there is no iteration. -/
def maxLatency : List ℤ → ℤ
  | [] => 0
  | x :: xs => xs.foldl max x

/-- The `variance` out-parameter of `MemoryBenchmark::calculate_statistics`
(memory_benchmark.cpp:240-271): `0` when the sample list is empty or a
singleton, otherwise the sum of squared deviations from `mean` divided by
`n - 1` (sample variance). -/
def calculate_variance (latencies : List ℚ) (mean : ℚ) : ℚ :=
  if latencies.length ≤ 1 then 0
  else
    let sum_squared_diff :=
      latencies.foldl (fun acc latency => acc + (latency - mean) * (latency - mean)) 0
    let n := latencies.length
    if 1 < n then sum_squared_diff / ((n : ℚ) - 1) else 0

/-- The `std_deviation` out-parameter of
`MemoryBenchmark::calculate_statistics` (memory_benchmark.cpp:240-271):
`sqrt(variance)` when the computed variance is positive, `0` otherwise. -/
noncomputable def calculate_std_deviation (latencies : List ℚ) (mean : ℚ) : ℝ :=
  let variance := calculate_variance latencies mean
  if 0 < variance then Real.sqrt (variance : ℝ) else 0

/-- `MemoryBenchmark::calculate_statistics` (memory_benchmark.cpp:240-271)
as a pair of its two out-parameters `(variance, std_deviation)`. -/
noncomputable def calculate_statistics (latencies : List ℚ) (mean : ℚ) : ℚ × ℝ :=
  (calculate_variance latencies mean, calculate_std_deviation latencies mean)

/-- `MemoryBenchmark::run_with_buffer` (memory_benchmark.cpp:35-114),
returning the `Results` record together with the buffer contents after the
run (the C++ version mutates the caller's buffer in place). The timing
environment supplies the per-cycle latencies `lat` and the total-timer
reading `elapsed_seconds`. -/
noncomputable def run_with_buffer_st (buffer : List ℕ) (buffer_size_bytes iterations : ℕ)
    (lat : ℕ → ℤ) (elapsed_seconds : ℚ) : Results × List ℕ :=
  let cycles := run_cycles buffer_size_bytes iterations buffer
  let total_errors := cycles.1
  let lats := latencyList iterations lat
  let latencies : List ℚ := lats.map (fun x : ℤ => (x : ℚ))
  let avg : ℚ := ((lats.sum : ℤ) : ℚ) / (iterations : ℚ)
  ({ buffer_size_bytes := buffer_size_bytes
     iterations := iterations
     timing := { min_latency_ns := ((minLatency lats : ℤ) : ℚ)
                 max_latency_ns := ((maxLatency lats : ℤ) : ℚ)
                 avg_latency_ns := avg
                 total_time_seconds := elapsed_seconds
                 variance_ns := calculate_variance latencies avg
                 std_deviation_ns := calculate_std_deviation latencies avg
                 sample_count := iterations }
     throughput_mbps :=
       ((buffer_size_bytes : ℚ) * (iterations : ℚ) * 3) / elapsed_seconds / (1024 * 1024)
     verification_passed := total_errors == 0
     verification_errors := total_errors },
   cycles.2)

/-- The `Results` component of `run_with_buffer`. -/
noncomputable def run_with_buffer (buffer : List ℕ) (buffer_size_bytes iterations : ℕ)
    (lat : ℕ → ℤ) (elapsed_seconds : ℚ) : Results :=
  (run_with_buffer_st buffer buffer_size_bytes iterations lat elapsed_seconds).1

/-- `MemoryBenchmark::run` (memory_benchmark.cpp:12-33): validates its
inputs (returning the value-initialized `Results{}` on a zero buffer size
or zero iteration count), then allocates a zero-initialized buffer of
`buffer_size_bytes` bytes and delegates to `run_with_buffer`. -/
noncomputable def run (buffer_size_bytes iterations : ℕ)
    (lat : ℕ → ℤ) (elapsed_seconds : ℚ) : Results :=
  if buffer_size_bytes = 0 then Results.zeroed
  else if iterations = 0 then Results.zeroed
  else
    run_with_buffer (List.replicate buffer_size_bytes 0)
      buffer_size_bytes iterations lat elapsed_seconds

/-- The `aggregated_results{}` record as initialized at the top of
`MemoryBenchmark::run_continuous` (memory_benchmark.cpp:122-133): buffer
size and per-run iteration count copied from the arguments, every
statistic zero, and `verification_passed` explicitly set to `true`. This
is also the value returned by the three validation early-returns. -/
def contInit (buffer_size_bytes iterations_per_run : ℕ) : Results :=
  { buffer_size_bytes := buffer_size_bytes
    iterations := iterations_per_run
    timing := { min_latency_ns := 0, max_latency_ns := 0, avg_latency_ns := 0,
                total_time_seconds := 0, variance_ns := 0, std_deviation_ns := 0,
                sample_count := 0 }
    throughput_mbps := 0
    verification_passed := true
    verification_errors := 0 }

/-- The mutable loop state of `run_continuous` (memory_benchmark.cpp:150-207):
the completed-run counter, the list of per-run average latencies, the
running min/max latency across runs (held in the aggregate record in the
C++ code), the accumulated total time, the accumulated verification error
count, and the reused buffer's current contents. -/
structure ContState where
  completed : ℕ
  runAvgs : List ℚ
  minL : ℚ
  maxL : ℚ
  totalTime : ℚ
  totalErrors : ℕ
  buffer : List ℕ

/-- The initial loop state of `run_continuous`: no completed runs, empty
aggregates, and a freshly allocated zero-initialized buffer of
`buffer_size_bytes` bytes (memory_benchmark.cpp:150-156). -/
def contStart (buffer_size_bytes : ℕ) : ContState :=
  { completed := 0, runAvgs := [], minL := 0, maxL := 0,
    totalTime := 0, totalErrors := 0,
    buffer := List.replicate buffer_size_bytes 0 }

/-- One non-stopping iteration of the continuous loop
(memory_benchmark.cpp:179-206): execute a single run against the shared
buffer and fold its results into the aggregate state — append the run's
average latency, seed or update the min/max across runs, accumulate the
total time and the verification errors, increment the completed-run
counter, and keep the mutated buffer. -/
noncomputable def contStep (buffer_size_bytes iterations_per_run : ℕ)
    (lat : ℕ → ℕ → ℤ) (runElapsed : ℕ → ℚ) (s : ContState) : ContState :=
  let st := run_with_buffer_st s.buffer buffer_size_bytes iterations_per_run
    (lat s.completed) (runElapsed s.completed)
  let r := st.1
  { completed := s.completed + 1
    runAvgs := s.runAvgs ++ [r.timing.avg_latency_ns]
    minL := if s.completed = 0 then r.timing.min_latency_ns
            else min s.minL r.timing.min_latency_ns
    maxL := if s.completed = 0 then r.timing.max_latency_ns
            else max s.maxL r.timing.max_latency_ns
    totalTime := s.totalTime + r.timing.total_time_seconds
    totalErrors := s.totalErrors + r.verification_errors
    buffer := st.2 }

/-- The `while (should_continue)` loop of `run_continuous`
(memory_benchmark.cpp:161-207), as a fuel-indexed recursion. At each
boundary it checks, in the code's order: the duration bound (the
continuous timer read at the k-th check is `nsAt k` nanoseconds, compared
as `elapsed >= max_duration_seconds`), then the run-count bound
(`completed_runs >= max_runs`), then executes one run against the shared
buffer (`contStep`), breaking if the run reports zero samples. Returns
the final state and `true` when the loop exited through one of these
stopping conditions, `false` when the fuel ran out first. -/
noncomputable def contLoop (buffer_size_bytes iterations_per_run max_runs : ℕ)
    (max_duration_seconds : ℚ) (nsAt : ℕ → ℤ) (lat : ℕ → ℕ → ℤ)
    (runElapsed : ℕ → ℚ) : ℕ → ContState → ContState × Bool
  | 0, s => (s, false)
  | fuel + 1, s =>
    if 0 < max_duration_seconds ∧
        max_duration_seconds ≤ ((nsAt s.completed : ℤ) : ℚ) / 1000000000 then
      (s, true)
    else if 0 < max_runs ∧ max_runs ≤ s.completed then
      (s, true)
    else if 0 < (run_with_buffer_st s.buffer buffer_size_bytes iterations_per_run
        (lat s.completed) (runElapsed s.completed)).1.timing.sample_count then
      contLoop buffer_size_bytes iterations_per_run max_runs max_duration_seconds
        nsAt lat runElapsed fuel
        (contStep buffer_size_bytes iterations_per_run lat runElapsed s)
    else (s, true)

/-- The post-loop aggregation block of `run_continuous`
(memory_benchmark.cpp:209-232): when at least one run completed, the
aggregate average latency is the mean of the per-run averages, variance
and standard deviation are computed over that same list, throughput is the
total bytes across all completed runs over the accumulated total time, and
`iterations` is `iterations_per_run * completed_runs`; otherwise the
initialized aggregate record is left unchanged. -/
noncomputable def contAggregate (buffer_size_bytes iterations_per_run : ℕ)
    (s : ContState) : Results :=
  if 0 < s.completed then
    { buffer_size_bytes := buffer_size_bytes
      iterations := iterations_per_run * s.completed
      timing := { min_latency_ns := s.minL
                  max_latency_ns := s.maxL
                  avg_latency_ns := s.runAvgs.sum / (s.completed : ℚ)
                  total_time_seconds := s.totalTime
                  variance_ns :=
                    calculate_variance s.runAvgs (s.runAvgs.sum / (s.completed : ℚ))
                  std_deviation_ns :=
                    calculate_std_deviation s.runAvgs (s.runAvgs.sum / (s.completed : ℚ))
                  sample_count := s.completed }
      throughput_mbps :=
        ((buffer_size_bytes : ℚ) * (iterations_per_run : ℚ) * (s.completed : ℚ) * 3)
          / s.totalTime / (1024 * 1024)
      verification_passed := true
      verification_errors := 0 }
  else contInit buffer_size_bytes iterations_per_run

/-- The tail of `run_continuous` after the loop (memory_benchmark.cpp:209-237):
aggregate, then set `verification_errors` and `verification_passed` from
the accumulated error count (lines 234-235 run on every non-early-return
path). -/
noncomputable def contFinalize (buffer_size_bytes iterations_per_run : ℕ)
    (s : ContState) : Results :=
  { contAggregate buffer_size_bytes iterations_per_run s with
      verification_errors := s.totalErrors
      verification_passed := s.totalErrors == 0 }

/-- `MemoryBenchmark::run_continuous` (memory_benchmark.cpp:116-238):
validates the configuration (returning the initialized aggregate record on
zero buffer size, zero iterations per run, or no stopping bound specified),
then runs the continuous loop from a fresh state and finalizes its
result. -/
noncomputable def run_continuous (buffer_size_bytes iterations_per_run max_runs : ℕ)
    (max_duration_seconds : ℚ) (nsAt : ℕ → ℤ) (lat : ℕ → ℕ → ℤ)
    (runElapsed : ℕ → ℚ) (fuel : ℕ) : Results :=
  if buffer_size_bytes = 0 then contInit buffer_size_bytes iterations_per_run
  else if iterations_per_run = 0 then contInit buffer_size_bytes iterations_per_run
  else if max_runs = 0 ∧ max_duration_seconds ≤ 0 then
    contInit buffer_size_bytes iterations_per_run
  else
    contFinalize buffer_size_bytes iterations_per_run
      (contLoop buffer_size_bytes iterations_per_run max_runs
        max_duration_seconds nsAt lat runElapsed fuel (contStart buffer_size_bytes)).1

/-- Buffer contents after `k` consecutive `verify_cycle` executions against
the same buffer (the per-run cycle loop of `run_with_buffer`, viewed one
cycle at a time). -/
def cycle_iterate (buffer : List ℕ) (size : ℕ) : ℕ → List ℕ
  | 0 => buffer
  | k + 1 => (verify_cycle (cycle_iterate buffer size k) size).2

/-- Error count reported by the `n`-th cycle (1-indexed) of a run that
started from `buffer`: the `verify_cycle` executed after `n - 1` earlier
cycles. -/
def nth_cycle_errors (buffer : List ℕ) (size n : ℕ) : ℕ :=
  (verify_cycle (cycle_iterate buffer size (n - 1)) size).1

/-- Verification invariant of the continuous-loop state: the per-run
average list has one entry per completed run, no verification error has
been accumulated, the reused buffer keeps its allocated size, and every
recorded per-run average lies between the aggregated min and max
latencies. -/
def ContInv (s : ContState) (buffer_size_bytes : ℕ) : Prop :=
  s.runAvgs.length = s.completed ∧
  s.totalErrors = 0 ∧
  s.buffer.length = buffer_size_bytes ∧
  ∀ a ∈ s.runAvgs, s.minL ≤ a ∧ a ≤ s.maxL

/-- The stopping condition of the continuous loop at boundary check `k`:
either the duration bound triggers on the clock reading `nsAt k`, or the
run-count bound triggers on `k` completed runs (memory_benchmark.cpp:164-177). -/
def stopCond (max_runs : ℕ) (max_duration_seconds : ℚ) (nsAt : ℕ → ℤ) (k : ℕ) : Prop :=
  (0 < max_duration_seconds ∧
    max_duration_seconds ≤ ((nsAt k : ℤ) : ℚ) / 1000000000) ∨
  (0 < max_runs ∧ max_runs ≤ k)

/-! Helper lemmas about the verification pattern and the cycle loop. -/

theorem write_pattern_length (buffer : List ℕ) (size : ℕ) :
    (write_pattern buffer size).length = buffer.length := by
  simp [write_pattern]

theorem write_pattern_getD (buffer : List ℕ) (size i : ℕ)
    (hi : i < size) (hl : i < buffer.length) :
    (write_pattern buffer size).getD i 0 = i &&& 0xFF := by
  have hl' : i < (write_pattern buffer size).length := by
    rw [write_pattern_length]; exact hl
  rw [List.getD_eq_getElem _ _ hl']
  simp [write_pattern, hi]

theorem verify_pattern_write (buffer : List ℕ) (size : ℕ) (h : size ≤ buffer.length) :
    verify_pattern (write_pattern buffer size) size = 0 := by
  unfold verify_pattern
  rw [List.length_eq_zero, List.filter_eq_nil_iff]
  intro a ha
  have ha' : a < size := List.mem_range.mp ha
  simp only [write_pattern_getD buffer size a ha' (lt_of_lt_of_le ha' h), ne_eq,
    decide_not, Bool.not_eq_true, decide_eq_false_iff_not, Decidable.not_not]
  simp

theorem verify_cycle_fst (buffer : List ℕ) (size : ℕ) (h : size ≤ buffer.length) :
    (verify_cycle buffer size).1 = 0 :=
  verify_pattern_write buffer size h

theorem verify_cycle_snd_length (buffer : List ℕ) (size : ℕ) :
    (verify_cycle buffer size).2.length = buffer.length :=
  write_pattern_length buffer size

theorem run_cycles_snd_length (size : ℕ) :
    ∀ (n : ℕ) (buffer : List ℕ), (run_cycles size n buffer).2.length = buffer.length := by
  intro n
  induction n with
  | zero => intro buffer; rfl
  | succ k ih =>
    intro buffer
    show (run_cycles size k (verify_cycle buffer size).2).2.length = _
    rw [ih, verify_cycle_snd_length]

theorem run_cycles_fst (size : ℕ) :
    ∀ (n : ℕ) (buffer : List ℕ), size ≤ buffer.length → (run_cycles size n buffer).1 = 0 := by
  intro n
  induction n with
  | zero => intro buffer _; rfl
  | succ k ih =>
    intro buffer h
    show (verify_cycle buffer size).1 + (run_cycles size k (verify_cycle buffer size).2).1 = 0
    rw [verify_cycle_fst buffer size h, ih _ (by rw [verify_cycle_snd_length]; exact h)]

/-! Helper lemmas about the incremental min/max trackers and list sums. -/

theorem foldl_min_le_init : ∀ (l : List ℤ) (a : ℤ), l.foldl min a ≤ a := by
  intro l
  induction l with
  | nil => intro a; exact le_refl a
  | cons x xs ih => intro a; exact le_trans (ih (min a x)) (min_le_left a x)

theorem foldl_min_le_mem : ∀ (l : List ℤ) (a x : ℤ), x ∈ l → l.foldl min a ≤ x := by
  intro l
  induction l with
  | nil => intro a x hx; cases hx
  | cons y ys ih =>
    intro a x hx
    rcases List.mem_cons.mp hx with h | h
    · subst h; exact le_trans (foldl_min_le_init ys (min a x)) (min_le_right a x)
    · exact ih (min a y) x h

theorem minLatency_le_mem (l : List ℤ) (x : ℤ) (hx : x ∈ l) : minLatency l ≤ x := by
  cases l with
  | nil => cases hx
  | cons y ys =>
    rcases List.mem_cons.mp hx with h | h
    · subst h
      exact foldl_min_le_init ys x
    · exact foldl_min_le_mem ys y x h

theorem init_le_foldl_max : ∀ (l : List ℤ) (a : ℤ), a ≤ l.foldl max a := by
  intro l
  induction l with
  | nil => intro a; exact le_refl a
  | cons x xs ih => intro a; exact le_trans (le_max_left a x) (ih (max a x))

theorem mem_le_foldl_max : ∀ (l : List ℤ) (a x : ℤ), x ∈ l → x ≤ l.foldl max a := by
  intro l
  induction l with
  | nil => intro a x hx; cases hx
  | cons y ys ih =>
    intro a x hx
    rcases List.mem_cons.mp hx with h | h
    · subst h; exact le_trans (le_max_right a x) (init_le_foldl_max ys (max a x))
    · exact ih (max a y) x h

theorem mem_le_maxLatency (l : List ℤ) (x : ℤ) (hx : x ∈ l) : x ≤ maxLatency l := by
  cases l with
  | nil => cases hx
  | cons y ys =>
    rcases List.mem_cons.mp hx with h | h
    · subst h
      exact init_le_foldl_max ys x
    · exact mem_le_foldl_max ys y x h

theorem mul_length_le_sum {α : Type} [LinearOrderedCommRing α] (m : α) :
    ∀ l : List α, (∀ x ∈ l, m ≤ x) → m * l.length ≤ l.sum := by
  intro l
  induction l with
  | nil => intro _; simp
  | cons x xs ih =>
    intro h
    have hx : m ≤ x := h x (List.mem_cons_self x xs)
    have hxs := ih (fun y hy => h y (List.mem_cons_of_mem x hy))
    simp only [List.sum_cons, List.length_cons]
    push_cast
    have hring : m * ((xs.length : α) + 1) = m * xs.length + m := by rw [mul_add, mul_one]
    linarith [hxs, hx]

theorem sum_le_mul_length {α : Type} [LinearOrderedCommRing α] (m : α) :
    ∀ l : List α, (∀ x ∈ l, x ≤ m) → l.sum ≤ m * l.length := by
  intro l
  induction l with
  | nil => intro _; simp
  | cons x xs ih =>
    intro h
    have hx : x ≤ m := h x (List.mem_cons_self x xs)
    have hxs := ih (fun y hy => h y (List.mem_cons_of_mem x hy))
    simp only [List.sum_cons, List.length_cons]
    push_cast
    have hring : m * ((xs.length : α) + 1) = m * xs.length + m := by rw [mul_add, mul_one]
    linarith [hxs, hx]

/-! Helper lemmas about the statistics aggregator. -/

theorem calculate_variance_of_le_one (l : List ℚ) (mean : ℚ) (h : l.length ≤ 1) :
    calculate_variance l mean = 0 := by
  simp [calculate_variance, h]

theorem calculate_variance_of_two_le (l : List ℚ) (mean : ℚ) (h : 2 ≤ l.length) :
    calculate_variance l mean =
      (l.foldl (fun acc x => acc + (x - mean) * (x - mean)) 0) / ((l.length : ℚ) - 1) := by
  have h1 : ¬ l.length ≤ 1 := by omega
  have h2 : 1 < l.length := by omega
  simp [calculate_variance, h1, h2]

theorem foldl_add_sq_nonneg (mean : ℚ) :
    ∀ (l : List ℚ) (acc : ℚ), 0 ≤ acc →
      0 ≤ l.foldl (fun a x => a + (x - mean) * (x - mean)) acc := by
  intro l
  induction l with
  | nil => intro acc h; exact h
  | cons x xs ih =>
    intro acc h
    refine ih _ ?_
    show 0 ≤ acc + (x - mean) * (x - mean)
    nlinarith [mul_self_nonneg (x - mean)]

theorem calculate_variance_nonneg (l : List ℚ) (mean : ℚ) :
    0 ≤ calculate_variance l mean := by
  by_cases h : l.length ≤ 1
  · rw [calculate_variance_of_le_one l mean h]
  · have h2 : 2 ≤ l.length := by omega
    rw [calculate_variance_of_two_le l mean h2]
    apply div_nonneg (foldl_add_sq_nonneg mean l 0 (le_refl 0))
    have : (2 : ℚ) ≤ (l.length : ℚ) := by exact_mod_cast h2
    linarith

theorem calculate_std_deviation_eq_sqrt (l : List ℚ) (mean : ℚ) :
    calculate_std_deviation l mean = Real.sqrt ((calculate_variance l mean : ℚ) : ℝ) := by
  by_cases hv : 0 < calculate_variance l mean
  · simp [calculate_std_deviation, hv]
  · have h0 : calculate_variance l mean = 0 :=
      le_antisymm (not_lt.mp hv) (calculate_variance_nonneg l mean)
    simp [calculate_std_deviation, hv, h0]

theorem calculate_std_deviation_of_le_one (l : List ℚ) (mean : ℚ) (h : l.length ≤ 1) :
    calculate_std_deviation l mean = 0 := by
  simp [calculate_std_deviation, calculate_variance_of_le_one l mean h]

theorem foldl_add_map (f : ℚ → ℚ) :
    ∀ (l : List ℚ) (c : ℚ), l.foldl (fun acc x => acc + f x) c = c + (l.map f).sum := by
  intro l
  induction l with
  | nil => intro c; simp
  | cons x xs ih =>
    intro c
    simp only [List.foldl_cons, List.map_cons, List.sum_cons, ih (c + f x)]
    ring

/-! Helper lemmas about a single run. -/

theorem latencyList_length (n : ℕ) (lat : ℕ → ℤ) : (latencyList n lat).length = n := by
  simp [latencyList]

theorem cycle_iterate_length (buffer : List ℕ) (size : ℕ) :
    ∀ k, (cycle_iterate buffer size k).length = buffer.length := by
  intro k
  induction k with
  | zero => rfl
  | succ j ih =>
    show (verify_cycle (cycle_iterate buffer size j) size).2.length = _
    rw [verify_cycle_snd_length, ih]

theorem avg_between_min_max (iters : ℕ) (lat : ℕ → ℤ) (h : 1 ≤ iters) :
    ((minLatency (latencyList iters lat) : ℤ) : ℚ) ≤
      (((latencyList iters lat).sum : ℤ) : ℚ) / (iters : ℚ) ∧
    (((latencyList iters lat).sum : ℤ) : ℚ) / (iters : ℚ) ≤
      ((maxLatency (latencyList iters lat) : ℤ) : ℚ) := by
  have hlen : (latencyList iters lat).length = iters := latencyList_length iters lat
  have h1 : minLatency (latencyList iters lat) * ((latencyList iters lat).length : ℤ) ≤
      (latencyList iters lat).sum :=
    mul_length_le_sum _ _ (fun x hx => minLatency_le_mem _ x hx)
  have h2 : (latencyList iters lat).sum ≤
      maxLatency (latencyList iters lat) * ((latencyList iters lat).length : ℤ) :=
    sum_le_mul_length _ _ (fun x hx => mem_le_maxLatency _ x hx)
  rw [hlen] at h1 h2
  have hpos : (0 : ℚ) < (iters : ℚ) := by
    have : 0 < iters := h
    exact_mod_cast this
  constructor
  · rw [le_div_iff₀ hpos]
    exact_mod_cast h1
  · rw [div_le_iff₀ hpos]
    exact_mod_cast h2

theorem run_with_buffer_min_avg_max (buffer : List ℕ) (bs iters : ℕ) (lat : ℕ → ℤ) (el : ℚ)
    (h : 1 ≤ iters) :
    (run_with_buffer buffer bs iters lat el).timing.min_latency_ns ≤
      (run_with_buffer buffer bs iters lat el).timing.avg_latency_ns ∧
    (run_with_buffer buffer bs iters lat el).timing.avg_latency_ns ≤
      (run_with_buffer buffer bs iters lat el).timing.max_latency_ns :=
  avg_between_min_max iters lat h

theorem run_with_buffer_errors_zero (buffer : List ℕ) (bs iters : ℕ) (lat : ℕ → ℤ) (el : ℚ)
    (h : bs ≤ buffer.length) :
    (run_with_buffer buffer bs iters lat el).verification_errors = 0 ∧
    (run_with_buffer buffer bs iters lat el).verification_passed = true := by
  have h0 : (run_cycles bs iters buffer).1 = 0 := run_cycles_fst bs iters buffer h
  constructor
  · exact h0
  · show ((run_cycles bs iters buffer).1 == 0) = true
    rw [h0]
    rfl

/-! Claim theorems. -/

/-- C1: for every sequence of numeric samples with its mean,
`calculate_statistics` returns, when the sequence has two or more
elements, a variance equal to the sum of squared deviations from the
given mean divided by `n - 1`, and a standard deviation equal to the
square root of that variance; when the sequence has zero or one element,
both outputs are `0` (no division by zero occurs). -/
theorem calculate_statistics_spec (latencies : List ℚ) (mean : ℚ) :
    (2 ≤ latencies.length →
      (calculate_statistics latencies mean).1 =
        (latencies.map (fun x => (x - mean) * (x - mean))).sum /
          ((latencies.length : ℚ) - 1) ∧
      (calculate_statistics latencies mean).2 =
        Real.sqrt (((calculate_statistics latencies mean).1 : ℚ) : ℝ)) ∧
    (latencies.length ≤ 1 →
      (calculate_statistics latencies mean).1 = 0 ∧
      (calculate_statistics latencies mean).2 = 0) := by
  constructor
  · intro h
    constructor
    · show calculate_variance latencies mean = _
      rw [calculate_variance_of_two_le latencies mean h,
        foldl_add_map (fun x => (x - mean) * (x - mean)) latencies 0]
      rw [zero_add]
    · exact calculate_std_deviation_eq_sqrt latencies mean
  · intro h
    exact ⟨calculate_variance_of_le_one latencies mean h,
      calculate_std_deviation_of_le_one latencies mean h⟩

/-- Witness for C1: a two-sample list takes the `n - 1` branch and a
singleton takes the zero branch. -/
theorem calculate_statistics_spec_witness :
    ((calculate_statistics [(1 : ℚ), 3] 2).1 =
        ([(1 : ℚ), 3].map (fun x => (x - 2) * (x - 2))).sum /
          ((([(1 : ℚ), 3].length) : ℚ) - 1) ∧
      (calculate_statistics [(1 : ℚ), 3] 2).2 =
        Real.sqrt (((calculate_statistics [(1 : ℚ), 3] 2).1 : ℚ) : ℝ)) ∧
    ((calculate_statistics [(5 : ℚ)] 0).1 = 0 ∧
      (calculate_statistics [(5 : ℚ)] 0).2 = 0) :=
  ⟨(calculate_statistics_spec [1, 3] 2).1 (by decide),
   (calculate_statistics_spec [5] 0).2 (by decide)⟩

/-- C3 counterexample: at `buffer_size_bytes = 0`, `iterations = 5`, the
single-run operation returns the value-initialized `Results{}`, whose
`verification_passed` is `false`, so the claimed conjunction
(`sample_count == 0` together with `verification_passed == true`) fails. -/
theorem run_invalid_passed_counterexample :
    ¬ ((run 0 5 (fun _ => 0) 0).timing.sample_count = 0 ∧
       (run 0 5 (fun _ => 0) 0).verification_passed = true) := by
  intro h
  exact absurd h.2 (by decide)

/-- C3 amended: for every call of `run` with `buffer_size_bytes == 0` or
`iterations == 0`, the operation returns the value-initialized `Results`
(no buffer allocation, no timed cycle) with `sample_count == 0` and
`verification_passed == false`. -/
theorem run_invalid_returns_zeroed (bs iters : ℕ) (lat : ℕ → ℤ) (el : ℚ)
    (h : bs = 0 ∨ iters = 0) :
    run bs iters lat el = Results.zeroed ∧
    (run bs iters lat el).timing.sample_count = 0 ∧
    (run bs iters lat el).verification_passed = false := by
  have hz : run bs iters lat el = Results.zeroed := by
    unfold run
    rcases h with h | h
    · rw [if_pos h]
    · by_cases hbs : bs = 0
      · rw [if_pos hbs]
      · rw [if_neg hbs, if_pos h]
  refine ⟨hz, ?_, ?_⟩
  · rw [hz]; rfl
  · rw [hz]; rfl

/-- Witness for C3 amended: `buffer_size_bytes = 0`, `iterations = 5`. -/
theorem run_invalid_returns_zeroed_witness :
    run 0 5 (fun _ => 0) 0 = Results.zeroed ∧
    (run 0 5 (fun _ => 0) 0).timing.sample_count = 0 ∧
    (run 0 5 (fun _ => 0) 0).verification_passed = false :=
  run_invalid_returns_zeroed 0 5 (fun _ => 0) 0 (Or.inl rfl)

/-- C6: for every initial buffer contents and every in-bounds size, after
the write step the buffer satisfies `buffer[i] == i mod 256` for all `i`
in range, and the error count of the second and every subsequent cycle of
a run is `0`. -/
theorem cycle_pattern_idempotence (buffer : List ℕ) (size n : ℕ)
    (h : size ≤ buffer.length) :
    (∀ i, i < size → (write_pattern buffer size).getD i 0 = i % 256) ∧
    (2 ≤ n → nth_cycle_errors buffer size n = 0) := by
  constructor
  · intro i hi
    rw [write_pattern_getD buffer size i hi (lt_of_lt_of_le hi h)]
    have h8 := Nat.and_pow_two_sub_one_eq_mod i 8
    norm_num at h8
    exact h8
  · intro _
    unfold nth_cycle_errors
    apply verify_cycle_fst
    rw [cycle_iterate_length]
    exact h

/-- Witness for C6: a non-pattern initial buffer of size 3; the write step
establishes the pattern and the second cycle reports zero errors. -/
theorem cycle_pattern_idempotence_witness :
    (write_pattern [7, 7, 7] 3).getD 1 0 = 1 % 256 ∧
    nth_cycle_errors [7, 7, 7] 3 2 = 0 :=
  ⟨(cycle_pattern_idempotence [7, 7, 7] 3 2 (by decide)).1 1 (by decide),
   (cycle_pattern_idempotence [7, 7, 7] 3 2 (by decide)).2 (by decide)⟩

/-- C7: for every single run with positive buffer size, positive iteration
count and positive elapsed time, the returned throughput equals
`(buffer_size_bytes * iterations * 3) / elapsed_seconds / (1024 * 1024)`
(one write pass plus two read passes per cycle). -/
theorem run_throughput_formula (bs iters : ℕ) (lat : ℕ → ℤ) (elapsed : ℚ)
    (hbs : 0 < bs) (hit : 0 < iters) (hel : 0 < elapsed) :
    (run bs iters lat elapsed).throughput_mbps =
      ((bs : ℚ) * (iters : ℚ) * 3) / elapsed / (1024 * 1024) := by
  unfold run
  rw [if_neg (Nat.pos_iff_ne_zero.mp hbs), if_neg (Nat.pos_iff_ne_zero.mp hit)]
  rfl

/-- Witness for C7: buffer of 1 byte, 1 iteration, 1 second. -/
theorem run_throughput_formula_witness :
    (run 1 1 (fun _ => 0) 1).throughput_mbps = 3 / (1024 * 1024) := by
  have h := run_throughput_formula 1 1 (fun _ => 0) 1 (by decide) (by decide) (by norm_num)
  rw [h]
  norm_num

/-- C10: in the deterministic memory model, `verify_cycle` returns error
count `0` for every buffer and every in-bounds size, because the write
step establishes exactly the pattern the verify step checks; consequently
every run with valid inputs returns `verification_errors == 0` and
`verification_passed == true`. -/
theorem verify_cycle_no_errors (buffer : List ℕ) (size : ℕ) (h : size ≤ buffer.length)
    (bs iters : ℕ) (lat : ℕ → ℤ) (el : ℚ) (hbs : bs ≠ 0) (hit : iters ≠ 0) :
    (verify_cycle buffer size).1 = 0 ∧
    (run bs iters lat el).verification_errors = 0 ∧
    (run bs iters lat el).verification_passed = true := by
  have hrun : run bs iters lat el =
      run_with_buffer (List.replicate bs 0) bs iters lat el := by
    unfold run
    rw [if_neg hbs, if_neg hit]
  have hz := run_with_buffer_errors_zero (List.replicate bs 0) bs iters lat el
    (by rw [List.length_replicate])
  exact ⟨verify_cycle_fst buffer size h, by rw [hrun]; exact hz.1, by rw [hrun]; exact hz.2⟩

/-- Witness for C10: a 2-byte buffer cycle and a 2-byte, 2-iteration run. -/
theorem verify_cycle_no_errors_witness :
    (verify_cycle [9, 9] 2).1 = 0 ∧
    (run 2 2 (fun _ => 4) 1).verification_errors = 0 ∧
    (run 2 2 (fun _ => 4) 1).verification_passed = true :=
  verify_cycle_no_errors [9, 9] 2 (by decide) 2 2 (fun _ => 4) 1
    (by decide) (by decide)

/-! Helper lemmas about the continuous loop. -/

theorem contLoop_succ_dur (bs ipr mr : ℕ) (md : ℚ) (nsAt : ℕ → ℤ) (lat : ℕ → ℕ → ℤ)
    (re : ℕ → ℚ) (fuel : ℕ) (s : ContState)
    (h : 0 < md ∧ md ≤ ((nsAt s.completed : ℤ) : ℚ) / 1000000000) :
    contLoop bs ipr mr md nsAt lat re (fuel + 1) s = (s, true) := by
  unfold contLoop
  rw [if_pos h]

theorem contLoop_succ_cnt (bs ipr mr : ℕ) (md : ℚ) (nsAt : ℕ → ℤ) (lat : ℕ → ℕ → ℤ)
    (re : ℕ → ℚ) (fuel : ℕ) (s : ContState)
    (h1 : ¬ (0 < md ∧ md ≤ ((nsAt s.completed : ℤ) : ℚ) / 1000000000))
    (h2 : 0 < mr ∧ mr ≤ s.completed) :
    contLoop bs ipr mr md nsAt lat re (fuel + 1) s = (s, true) := by
  unfold contLoop
  rw [if_neg h1, if_pos h2]

theorem contLoop_succ_step (bs ipr mr : ℕ) (md : ℚ) (nsAt : ℕ → ℤ) (lat : ℕ → ℕ → ℤ)
    (re : ℕ → ℚ) (fuel : ℕ) (s : ContState)
    (h1 : ¬ (0 < md ∧ md ≤ ((nsAt s.completed : ℤ) : ℚ) / 1000000000))
    (h2 : ¬ (0 < mr ∧ mr ≤ s.completed)) (hipr : 0 < ipr) :
    contLoop bs ipr mr md nsAt lat re (fuel + 1) s =
      contLoop bs ipr mr md nsAt lat re fuel (contStep bs ipr lat re s) := by
  conv_lhs => unfold contLoop
  rw [if_neg h1, if_neg h2,
    if_pos (show 0 < (run_with_buffer_st s.buffer bs ipr (lat s.completed)
      (re s.completed)).1.timing.sample_count from hipr)]

theorem contStep_completed (bs ipr : ℕ) (lat : ℕ → ℕ → ℤ) (re : ℕ → ℚ) (s : ContState) :
    (contStep bs ipr lat re s).completed = s.completed + 1 := rfl

theorem contStart_inv (bs : ℕ) : ContInv (contStart bs) bs := by
  refine ⟨rfl, rfl, ?_, ?_⟩
  · show (List.replicate bs 0).length = bs
    exact List.length_replicate bs 0
  · intro a ha
    cases ha

theorem contStep_inv (bs ipr : ℕ) (lat : ℕ → ℕ → ℤ) (re : ℕ → ℚ) (s : ContState)
    (hipr : 1 ≤ ipr) (hinv : ContInv s bs) :
    ContInv (contStep bs ipr lat re s) bs := by
  obtain ⟨hlen, herr, hbuf, hmm⟩ := hinv
  have ham := run_with_buffer_min_avg_max s.buffer bs ipr (lat s.completed)
    (re s.completed) hipr
  have herr0 := run_with_buffer_errors_zero s.buffer bs ipr (lat s.completed)
    (re s.completed) (le_of_eq hbuf.symm)
  unfold run_with_buffer at ham herr0
  refine ⟨?_, ?_, ?_, ?_⟩
  · show (s.runAvgs ++ [_]).length = s.completed + 1
    rw [List.length_append, hlen]
    rfl
  · show s.totalErrors + _ = 0
    rw [herr, herr0.1]
  · show (run_with_buffer_st s.buffer bs ipr (lat s.completed)
      (re s.completed)).2.length = bs
    show (run_cycles bs ipr s.buffer).2.length = bs
    rw [run_cycles_snd_length, hbuf]
  · intro a ha
    show (contStep bs ipr lat re s).minL ≤ a ∧ a ≤ (contStep bs ipr lat re s).maxL
    have ha' : a ∈ s.runAvgs ++
        [(run_with_buffer_st s.buffer bs ipr (lat s.completed)
          (re s.completed)).1.timing.avg_latency_ns] := ha
    rcases List.mem_append.mp ha' with hold | hnew
    · rcases Nat.eq_zero_or_pos s.completed with h0 | hpos
      · have hnil : s.runAvgs = [] := by
          apply List.eq_nil_of_length_eq_zero
          rw [hlen, h0]
        rw [hnil] at hold
        cases hold
      · have hne : ¬ s.completed = 0 := by omega
        have hma := hmm a hold
        show (if s.completed = 0 then _ else min s.minL _) ≤ a ∧
          a ≤ (if s.completed = 0 then _ else max s.maxL _)
        rw [if_neg hne, if_neg hne]
        exact ⟨le_trans (min_le_left _ _) hma.1, le_trans hma.2 (le_max_left _ _)⟩
    · have heq : a = (run_with_buffer_st s.buffer bs ipr (lat s.completed)
          (re s.completed)).1.timing.avg_latency_ns := List.mem_singleton.mp hnew
      subst heq
      show (if s.completed = 0 then _ else min s.minL _) ≤ _ ∧
        _ ≤ (if s.completed = 0 then _ else max s.maxL _)
      by_cases h0 : s.completed = 0
      · rw [if_pos h0, if_pos h0]
        exact ⟨ham.1, ham.2⟩
      · rw [if_neg h0, if_neg h0]
        exact ⟨le_trans (min_le_right _ _) ham.1, le_trans ham.2 (le_max_right _ _)⟩

theorem contLoop_inv (bs ipr mr : ℕ) (md : ℚ) (nsAt : ℕ → ℤ) (lat : ℕ → ℕ → ℤ)
    (re : ℕ → ℚ) (hipr : 1 ≤ ipr) :
    ∀ (fuel : ℕ) (s : ContState), ContInv s bs →
      ContInv ((contLoop bs ipr mr md nsAt lat re fuel s).1) bs := by
  intro fuel
  induction fuel with
  | zero => intro s h; exact h
  | succ f ih =>
    intro s h
    by_cases h1 : 0 < md ∧ md ≤ ((nsAt s.completed : ℤ) : ℚ) / 1000000000
    · rw [contLoop_succ_dur bs ipr mr md nsAt lat re f s h1]
      exact h
    · by_cases h2 : 0 < mr ∧ mr ≤ s.completed
      · rw [contLoop_succ_cnt bs ipr mr md nsAt lat re f s h1 h2]
        exact h
      · rw [contLoop_succ_step bs ipr mr md nsAt lat re f s h1 h2 hipr]
        exact ih _ (contStep_inv bs ipr lat re s hipr h)

theorem contLoop_count (bs ipr mr : ℕ) (md : ℚ) (nsAt : ℕ → ℤ) (lat : ℕ → ℕ → ℤ)
    (re : ℕ → ℚ) (hipr : 1 ≤ ipr) (hmr : 0 < mr)
    (hdur : ∀ k, k < mr → 0 < md → ((nsAt k : ℤ) : ℚ) / 1000000000 < md) :
    ∀ (n : ℕ), ∀ (s : ContState) (fuel : ℕ), s.completed + n = mr → n + 1 ≤ fuel →
      (contLoop bs ipr mr md nsAt lat re fuel s).1.completed = mr ∧
      (contLoop bs ipr mr md nsAt lat re fuel s).2 = true := by
  intro n
  induction n with
  | zero =>
    intro s fuel hc hf
    obtain ⟨f, rfl⟩ : ∃ f, fuel = f + 1 := ⟨fuel - 1, by omega⟩
    have hc0 : s.completed = mr := by omega
    by_cases h1 : 0 < md ∧ md ≤ ((nsAt s.completed : ℤ) : ℚ) / 1000000000
    · rw [contLoop_succ_dur bs ipr mr md nsAt lat re f s h1]
      exact ⟨hc0, rfl⟩
    · rw [contLoop_succ_cnt bs ipr mr md nsAt lat re f s h1 ⟨hmr, le_of_eq hc0.symm⟩]
      exact ⟨hc0, rfl⟩
  | succ k ih =>
    intro s fuel hc hf
    obtain ⟨f, rfl⟩ : ∃ f, fuel = f + 1 := ⟨fuel - 1, by omega⟩
    have hlt : s.completed < mr := by omega
    have h1 : ¬ (0 < md ∧ md ≤ ((nsAt s.completed : ℤ) : ℚ) / 1000000000) := by
      rintro ⟨hm, hle⟩
      exact absurd hle (not_le.mpr (hdur s.completed hlt hm))
    have h2 : ¬ (0 < mr ∧ mr ≤ s.completed) := by
      rintro ⟨_, hle⟩
      omega
    rw [contLoop_succ_step bs ipr mr md nsAt lat re f s h1 h2 hipr]
    exact ih (contStep bs ipr lat re s) f (by rw [contStep_completed]; omega) (by omega)

theorem contLoop_stops (bs ipr mr : ℕ) (md : ℚ) (nsAt : ℕ → ℤ) (lat : ℕ → ℕ → ℤ)
    (re : ℕ → ℚ) (hipr : 1 ≤ ipr) :
    ∀ (n : ℕ) (s : ContState) (fuel : ℕ), stopCond mr md nsAt (s.completed + n) →
      n + 1 ≤ fuel → (contLoop bs ipr mr md nsAt lat re fuel s).2 = true := by
  intro n
  induction n with
  | zero =>
    intro s fuel hstop hf
    obtain ⟨f, rfl⟩ : ∃ f, fuel = f + 1 := ⟨fuel - 1, by omega⟩
    rw [Nat.add_zero] at hstop
    by_cases h1 : 0 < md ∧ md ≤ ((nsAt s.completed : ℤ) : ℚ) / 1000000000
    · rw [contLoop_succ_dur bs ipr mr md nsAt lat re f s h1]
    · have h2 : 0 < mr ∧ mr ≤ s.completed := by
        rcases hstop with h | h
        · exact absurd h h1
        · exact h
      rw [contLoop_succ_cnt bs ipr mr md nsAt lat re f s h1 h2]
  | succ k ih =>
    intro s fuel hstop hf
    obtain ⟨f, rfl⟩ : ∃ f, fuel = f + 1 := ⟨fuel - 1, by omega⟩
    by_cases h1 : 0 < md ∧ md ≤ ((nsAt s.completed : ℤ) : ℚ) / 1000000000
    · rw [contLoop_succ_dur bs ipr mr md nsAt lat re f s h1]
    · by_cases h2 : 0 < mr ∧ mr ≤ s.completed
      · rw [contLoop_succ_cnt bs ipr mr md nsAt lat re f s h1 h2]
      · rw [contLoop_succ_step bs ipr mr md nsAt lat re f s h1 h2 hipr]
        apply ih (contStep bs ipr lat re s) f ?_ (by omega)
        have harr : (contStep bs ipr lat re s).completed + k = s.completed + (k + 1) := by
          rw [contStep_completed]
          omega
        rw [harr]
        exact hstop

theorem strictMono_nsAt_lower (nsAt : ℕ → ℤ) (h : StrictMono nsAt) :
    ∀ k : ℕ, nsAt 0 + k ≤ nsAt k := by
  intro k
  induction k with
  | zero => simp
  | succ j ih =>
    have hj : nsAt j < nsAt (j + 1) := h (Nat.lt_succ_self j)
    push_cast
    push_cast at ih
    omega

/-! Helper lemmas about validation and post-processing of `run_continuous`,
and projection lemmas for `run_with_buffer`. -/

theorem run_with_buffer_sample_count (buffer : List ℕ) (bs iters : ℕ)
    (lat : ℕ → ℤ) (el : ℚ) :
    (run_with_buffer buffer bs iters lat el).timing.sample_count = iters := rfl

theorem run_with_buffer_variance_eq (buffer : List ℕ) (bs iters : ℕ)
    (lat : ℕ → ℤ) (el : ℚ) :
    (run_with_buffer buffer bs iters lat el).timing.variance_ns =
      calculate_variance ((latencyList iters lat).map (fun x : ℤ => (x : ℚ)))
        ((((latencyList iters lat).sum : ℤ) : ℚ) / (iters : ℚ)) := rfl

theorem run_with_buffer_std_eq (buffer : List ℕ) (bs iters : ℕ)
    (lat : ℕ → ℤ) (el : ℚ) :
    (run_with_buffer buffer bs iters lat el).timing.std_deviation_ns =
      calculate_std_deviation ((latencyList iters lat).map (fun x : ℤ => (x : ℚ)))
        ((((latencyList iters lat).sum : ℤ) : ℚ) / (iters : ℚ)) := rfl

theorem latencyList_map_length (iters : ℕ) (lat : ℕ → ℤ) :
    ((latencyList iters lat).map (fun x : ℤ => (x : ℚ))).length = iters := by
  simp [latencyList]

theorem run_valid_eq (bs iters : ℕ) (lat : ℕ → ℤ) (el : ℚ)
    (h1 : bs ≠ 0) (h2 : iters ≠ 0) :
    run bs iters lat el = run_with_buffer (List.replicate bs 0) bs iters lat el := by
  unfold run
  rw [if_neg h1, if_neg h2]

theorem run_continuous_valid (bs ipr mr : ℕ) (md : ℚ) (nsAt : ℕ → ℤ)
    (lat : ℕ → ℕ → ℤ) (re : ℕ → ℚ) (fuel : ℕ)
    (h1 : bs ≠ 0) (h2 : ipr ≠ 0) (h3 : ¬ (mr = 0 ∧ md ≤ 0)) :
    run_continuous bs ipr mr md nsAt lat re fuel =
      contFinalize bs ipr
        (contLoop bs ipr mr md nsAt lat re fuel (contStart bs)).1 := by
  unfold run_continuous
  rw [if_neg h1, if_neg h2, if_neg h3]

theorem run_continuous_invalid_eq (bs ipr mr : ℕ) (md : ℚ) (nsAt : ℕ → ℤ)
    (lat : ℕ → ℕ → ℤ) (re : ℕ → ℚ) (fuel : ℕ)
    (h : bs = 0 ∨ ipr = 0 ∨ (mr = 0 ∧ md ≤ 0)) :
    run_continuous bs ipr mr md nsAt lat re fuel = contInit bs ipr := by
  unfold run_continuous
  by_cases hbs : bs = 0
  · rw [if_pos hbs]
  · rw [if_neg hbs]
    by_cases hip : ipr = 0
    · rw [if_pos hip]
    · rw [if_neg hip]
      have hmd : mr = 0 ∧ md ≤ 0 := by
        rcases h with h | h | h
        · exact absurd h hbs
        · exact absurd h hip
        · exact h
      rw [if_pos hmd]

theorem contAggregate_timing_pos (bs ipr : ℕ) (s : ContState) (h : 0 < s.completed) :
    (contAggregate bs ipr s).timing =
      { min_latency_ns := s.minL
        max_latency_ns := s.maxL
        avg_latency_ns := s.runAvgs.sum / (s.completed : ℚ)
        total_time_seconds := s.totalTime
        variance_ns := calculate_variance s.runAvgs (s.runAvgs.sum / (s.completed : ℚ))
        std_deviation_ns :=
          calculate_std_deviation s.runAvgs (s.runAvgs.sum / (s.completed : ℚ))
        sample_count := s.completed } := by
  unfold contAggregate
  rw [if_pos h]

theorem contAggregate_neg (bs ipr : ℕ) (s : ContState) (h : ¬ 0 < s.completed) :
    contAggregate bs ipr s = contInit bs ipr := by
  unfold contAggregate
  rw [if_neg h]

theorem contFinalize_timing (bs ipr : ℕ) (s : ContState) :
    (contFinalize bs ipr s).timing = (contAggregate bs ipr s).timing := rfl

theorem contFinalize_sample_count (bs ipr : ℕ) (s : ContState) (h : 0 < s.completed) :
    (contFinalize bs ipr s).timing.sample_count = s.completed := by
  rw [contFinalize_timing, contAggregate_timing_pos bs ipr s h]

theorem contFinalize_sample_count_zero (bs ipr : ℕ) (s : ContState)
    (h : ¬ 0 < s.completed) :
    (contFinalize bs ipr s).timing.sample_count = 0 := by
  rw [contFinalize_timing, contAggregate_neg bs ipr s h]
  rfl

theorem contFinalize_iterations (bs ipr : ℕ) (s : ContState) (h : 0 < s.completed) :
    (contFinalize bs ipr s).iterations = ipr * s.completed := by
  show (contAggregate bs ipr s).iterations = ipr * s.completed
  unfold contAggregate
  rw [if_pos h]

theorem contFinalize_passed (bs ipr : ℕ) (s : ContState) (h : s.totalErrors = 0) :
    (contFinalize bs ipr s).verification_passed = true := by
  show (s.totalErrors == 0) = true
  rw [h]
  rfl

theorem contFinalize_start (bs ipr : ℕ) :
    contFinalize bs ipr (contStart bs) = contInit bs ipr := by
  unfold contFinalize
  rw [contAggregate_neg bs ipr (contStart bs)
    (by intro hh; exact absurd (hh : (0 : ℕ) < 0) (lt_irrefl 0))]
  rfl

/-- C4: for every call of `run_continuous` with positive buffer size,
positive iterations per run, positive `max_runs` and a duration bound that
never triggers first, exactly `max_runs` runs complete (reported in
`sample_count`), the aggregate `iterations` equals
`iterations_per_run * completed_runs`, and `verification_passed` is `true`
since no byte mismatch occurs in any run. -/
theorem run_continuous_max_runs_spec (bs ipr mr : ℕ) (md : ℚ) (nsAt : ℕ → ℤ)
    (lat : ℕ → ℕ → ℤ) (re : ℕ → ℚ) (fuel : ℕ)
    (hbs : 0 < bs) (hipr : 0 < ipr) (hmr : 0 < mr)
    (hdur : ∀ k, k < mr → 0 < md → ((nsAt k : ℤ) : ℚ) / 1000000000 < md)
    (hfuel : mr + 1 ≤ fuel) :
    (run_continuous bs ipr mr md nsAt lat re fuel).timing.sample_count = mr ∧
    (run_continuous bs ipr mr md nsAt lat re fuel).iterations = ipr * mr ∧
    (run_continuous bs ipr mr md nsAt lat re fuel).verification_passed = true := by
  have hvalid := run_continuous_valid bs ipr mr md nsAt lat re fuel
    (by omega) (by omega) (by rintro ⟨h, _⟩; omega)
  have hcount := contLoop_count bs ipr mr md nsAt lat re hipr hmr hdur mr
    (contStart bs) fuel (by show 0 + mr = mr; omega) hfuel
  have hinv := contLoop_inv bs ipr mr md nsAt lat re hipr fuel (contStart bs)
    (contStart_inv bs)
  set s := (contLoop bs ipr mr md nsAt lat re fuel (contStart bs)).1 with hs
  have hcpos : 0 < s.completed := by rw [hcount.1]; exact hmr
  refine ⟨?_, ?_, ?_⟩
  · rw [hvalid, contFinalize_sample_count bs ipr s hcpos, hcount.1]
  · rw [hvalid, contFinalize_iterations bs ipr s hcpos, hcount.1]
  · rw [hvalid, contFinalize_passed bs ipr s hinv.2.1]

/-- Witness for C4: 1-byte buffer, 2 iterations per run, `max_runs = 2`, no
duration bound, fuel 3; exactly 2 runs complete and `iterations = 4`. -/
theorem run_continuous_max_runs_spec_witness :
    (run_continuous 1 2 2 0 (fun _ => 0) (fun _ _ => 1)
      (fun _ => 1) 3).timing.sample_count = 2 ∧
    (run_continuous 1 2 2 0 (fun _ => 0) (fun _ _ => 1)
      (fun _ => 1) 3).iterations = 2 * 2 ∧
    (run_continuous 1 2 2 0 (fun _ => 0) (fun _ _ => 1)
      (fun _ => 1) 3).verification_passed = true :=
  run_continuous_max_runs_spec 1 2 2 0 (fun _ => 0) (fun _ _ => 1) (fun _ => 1) 3
    (by decide) (by decide) (by decide)
    (fun k hk h0 => absurd h0 (by norm_num)) (by decide)

/-- C5: for every call of `run_continuous` with only a positive duration
bound (`max_runs == 0`) and a clock under which the session start is below
the bound but the reading after the first run already meets it, the loop
terminates and exactly one run completes: the duration check happens only
between runs, so at least one run always executes. -/
theorem run_continuous_duration_one_run (bs ipr : ℕ) (md : ℚ) (nsAt : ℕ → ℤ)
    (lat : ℕ → ℕ → ℤ) (re : ℕ → ℚ) (fuel : ℕ)
    (hbs : 0 < bs) (hipr : 0 < ipr) (hmd : 0 < md)
    (h0 : ((nsAt 0 : ℤ) : ℚ) / 1000000000 < md)
    (h1 : md ≤ ((nsAt 1 : ℤ) : ℚ) / 1000000000)
    (hfuel : 2 ≤ fuel) :
    (contLoop bs ipr 0 md nsAt lat re fuel (contStart bs)).2 = true ∧
    (run_continuous bs ipr 0 md nsAt lat re fuel).timing.sample_count = 1 := by
  obtain ⟨f, rfl⟩ : ∃ f, fuel = f + 1 + 1 := ⟨fuel - 2, by omega⟩
  have hnd0 : ¬ (0 < md ∧
      md ≤ ((nsAt (contStart bs).completed : ℤ) : ℚ) / 1000000000) := by
    rintro ⟨_, hle⟩
    have hc : (contStart bs).completed = 0 := rfl
    rw [hc] at hle
    linarith
  have hnc0 : ¬ (0 < 0 ∧ 0 ≤ (contStart bs).completed) := by
    rintro ⟨hlt, _⟩
    exact absurd hlt (lt_irrefl 0)
  have hstep := contLoop_succ_step bs ipr 0 md nsAt lat re (f + 1) (contStart bs)
    hnd0 hnc0 hipr
  set s1 := contStep bs ipr lat re (contStart bs) with hs1
  have hc1 : s1.completed = 1 := rfl
  have hd1 : 0 < md ∧ md ≤ ((nsAt s1.completed : ℤ) : ℚ) / 1000000000 := by
    rw [hc1]
    exact ⟨hmd, h1⟩
  have hstop := contLoop_succ_dur bs ipr 0 md nsAt lat re f s1 hd1
  have hfst : ((s1, true) : ContState × Bool).1 = s1 := rfl
  constructor
  · rw [hstep, hstop]
  · have hvalid := run_continuous_valid bs ipr 0 md nsAt lat re (f + 1 + 1)
      (by omega) (by omega) (by rintro ⟨_, hle⟩; linarith)
    rw [hvalid, hstep, hstop, hfst,
      contFinalize_sample_count bs ipr s1 (by rw [hc1]; norm_num), hc1]

/-- Witness for C5: duration bound of 1 second, clock at 0 ns before the
first run and at 2 seconds after it; exactly one run completes. -/
theorem run_continuous_duration_one_run_witness :
    (contLoop 1 1 0 1 (fun k => if k = 0 then 0 else 2000000000)
      (fun _ _ => 1) (fun _ => 1) 2 (contStart 1)).2 = true ∧
    (run_continuous 1 1 0 1 (fun k => if k = 0 then 0 else 2000000000)
      (fun _ _ => 1) (fun _ => 1) 2).timing.sample_count = 1 :=
  run_continuous_duration_one_run 1 1 1 (fun k => if k = 0 then 0 else 2000000000)
    (fun _ _ => 1) (fun _ => 1) 2 (by decide) (by decide) (by norm_num)
    (by norm_num) (by norm_num) (by decide)

/-- C8: for every configuration that passes validation (positive buffer
size, positive iterations per run, and a positive run-count or duration
bound) and a strictly increasing monotonic clock, the continuous loop
terminates: some finite fuel makes it exit through one of its own
stopping conditions (a bound triggering at a run boundary, or the
zero-sample break). -/
theorem run_continuous_terminates (bs ipr mr : ℕ) (md : ℚ) (nsAt : ℕ → ℤ)
    (lat : ℕ → ℕ → ℤ) (re : ℕ → ℚ)
    (hbs : 0 < bs) (hipr : 0 < ipr) (hstop : 0 < mr ∨ 0 < md)
    (hmono : StrictMono nsAt) :
    ∃ fuel, (contLoop bs ipr mr md nsAt lat re fuel (contStart bs)).2 = true := by
  rcases hstop with hmr | hmd
  · refine ⟨mr + 1, ?_⟩
    apply contLoop_stops bs ipr mr md nsAt lat re hipr mr (contStart bs) (mr + 1)
      ?_ (le_refl _)
    unfold stopCond
    right
    refine ⟨hmr, ?_⟩
    show mr ≤ (contStart bs).completed + mr
    omega
  · obtain ⟨n, hn⟩ := exists_nat_ge (md * 1000000000 - ((nsAt 0 : ℤ) : ℚ))
    refine ⟨n + 1, ?_⟩
    apply contLoop_stops bs ipr mr md nsAt lat re hipr n (contStart bs) (n + 1)
      ?_ (le_refl _)
    unfold stopCond
    left
    refine ⟨hmd, ?_⟩
    have hc : (contStart bs).completed + n = n := by
      show 0 + n = n
      omega
    rw [hc, le_div_iff₀ (by norm_num : (0 : ℚ) < 1000000000)]
    have hlow := strictMono_nsAt_lower nsAt hmono n
    have hcast : ((nsAt 0 : ℤ) : ℚ) + (n : ℚ) ≤ ((nsAt n : ℤ) : ℚ) := by
      exact_mod_cast hlow
    linarith

/-- Witness for C8: run-count bound 1 with the identity clock (strictly
increasing), fuel exists. -/
theorem run_continuous_terminates_witness :
    ∃ fuel, (contLoop 1 1 1 0 (fun k => (k : ℤ)) (fun _ _ => 1) (fun _ => 1) fuel
      (contStart 1)).2 = true :=
  run_continuous_terminates 1 1 1 0 (fun k => (k : ℤ)) (fun _ _ => 1) (fun _ => 1)
    (by decide) (by decide) (Or.inl (by decide))
    (fun a b h => by show (a : ℤ) < (b : ℤ); exact_mod_cast h)

/-- C9: for every call of `run_continuous` that completes zero runs
(invalid configuration, or a duration bound already met at the first
boundary check), the returned `Results` is the initialized aggregate
record: `sample_count == 0`, all timing statistics `0`, throughput `0`,
and `verification_passed` stays `true`, so callers must check
`sample_count` rather than `verification_passed` to detect a session that
did not run. -/
theorem run_continuous_zero_runs_zeroed (bs ipr mr : ℕ) (md : ℚ) (nsAt : ℕ → ℤ)
    (lat : ℕ → ℕ → ℤ) (re : ℕ → ℚ) (fuel : ℕ)
    (h : (bs = 0 ∨ ipr = 0 ∨ (mr = 0 ∧ md ≤ 0)) ∨
      (0 < md ∧ md ≤ ((nsAt 0 : ℤ) : ℚ) / 1000000000 ∧ 1 ≤ fuel)) :
    run_continuous bs ipr mr md nsAt lat re fuel = contInit bs ipr ∧
    (run_continuous bs ipr mr md nsAt lat re fuel).timing.sample_count = 0 ∧
    (run_continuous bs ipr mr md nsAt lat re fuel).timing.min_latency_ns = 0 ∧
    (run_continuous bs ipr mr md nsAt lat re fuel).timing.max_latency_ns = 0 ∧
    (run_continuous bs ipr mr md nsAt lat re fuel).timing.avg_latency_ns = 0 ∧
    (run_continuous bs ipr mr md nsAt lat re fuel).timing.variance_ns = 0 ∧
    (run_continuous bs ipr mr md nsAt lat re fuel).timing.std_deviation_ns = 0 ∧
    (run_continuous bs ipr mr md nsAt lat re fuel).timing.total_time_seconds = 0 ∧
    (run_continuous bs ipr mr md nsAt lat re fuel).throughput_mbps = 0 ∧
    (run_continuous bs ipr mr md nsAt lat re fuel).verification_passed = true := by
  have hres : run_continuous bs ipr mr md nsAt lat re fuel = contInit bs ipr := by
    rcases h with hA | hB
    · exact run_continuous_invalid_eq bs ipr mr md nsAt lat re fuel hA
    · obtain ⟨hmd, hle, hf⟩ := hB
      obtain ⟨f, rfl⟩ : ∃ f, fuel = f + 1 := ⟨fuel - 1, by omega⟩
      by_cases hbs : bs = 0
      · exact run_continuous_invalid_eq _ _ _ _ _ _ _ _ (Or.inl hbs)
      · by_cases hip : ipr = 0
        · exact run_continuous_invalid_eq _ _ _ _ _ _ _ _ (Or.inr (Or.inl hip))
        · have hval := run_continuous_valid bs ipr mr md nsAt lat re (f + 1) hbs hip
            (by rintro ⟨_, hle0⟩; linarith)
          rw [hval]
          have hd : 0 < md ∧
              md ≤ ((nsAt (contStart bs).completed : ℤ) : ℚ) / 1000000000 := by
            refine ⟨hmd, ?_⟩
            have hc : (contStart bs).completed = 0 := rfl
            rw [hc]
            exact hle
          rw [contLoop_succ_dur bs ipr mr md nsAt lat re f (contStart bs) hd]
          exact contFinalize_start bs ipr
  refine ⟨hres, ?_, ?_, ?_, ?_, ?_, ?_, ?_, ?_, ?_⟩ <;> rw [hres] <;> rfl

/-- Witness for C9: duration bound 1 second already met by the clock at the
first boundary check (2 seconds). -/
theorem run_continuous_zero_runs_zeroed_witness :
    run_continuous 1 1 0 1 (fun _ => 2000000000) (fun _ _ => 1) (fun _ => 1) 1 =
      contInit 1 1 ∧
    (run_continuous 1 1 0 1 (fun _ => 2000000000) (fun _ _ => 1)
      (fun _ => 1) 1).timing.sample_count = 0 ∧
    (run_continuous 1 1 0 1 (fun _ => 2000000000) (fun _ _ => 1)
      (fun _ => 1) 1).timing.min_latency_ns = 0 ∧
    (run_continuous 1 1 0 1 (fun _ => 2000000000) (fun _ _ => 1)
      (fun _ => 1) 1).timing.max_latency_ns = 0 ∧
    (run_continuous 1 1 0 1 (fun _ => 2000000000) (fun _ _ => 1)
      (fun _ => 1) 1).timing.avg_latency_ns = 0 ∧
    (run_continuous 1 1 0 1 (fun _ => 2000000000) (fun _ _ => 1)
      (fun _ => 1) 1).timing.variance_ns = 0 ∧
    (run_continuous 1 1 0 1 (fun _ => 2000000000) (fun _ _ => 1)
      (fun _ => 1) 1).timing.std_deviation_ns = 0 ∧
    (run_continuous 1 1 0 1 (fun _ => 2000000000) (fun _ _ => 1)
      (fun _ => 1) 1).timing.total_time_seconds = 0 ∧
    (run_continuous 1 1 0 1 (fun _ => 2000000000) (fun _ _ => 1)
      (fun _ => 1) 1).throughput_mbps = 0 ∧
    (run_continuous 1 1 0 1 (fun _ => 2000000000) (fun _ _ => 1)
      (fun _ => 1) 1).verification_passed = true :=
  run_continuous_zero_runs_zeroed 1 1 0 1 (fun _ => 2000000000) (fun _ _ => 1)
    (fun _ => 1) 1 (Or.inr ⟨by norm_num, by norm_num, by norm_num⟩)

/-- C2: for every `Results` value produced by a single run (`run`) or a
continuous session (`run_continuous`), if `sample_count >= 1` then
`min_latency_ns <= avg_latency_ns <= max_latency_ns` and
`variance_ns >= 0`; and whenever `sample_count <= 1`, `variance_ns == 0`
and `std_deviation_ns == 0`. -/
theorem results_timing_invariants (bs iters : ℕ) (lat : ℕ → ℤ) (el : ℚ)
    (bs2 ipr mr : ℕ) (md : ℚ) (nsAt : ℕ → ℤ) (lat2 : ℕ → ℕ → ℤ) (re : ℕ → ℚ)
    (fuel : ℕ) :
    (1 ≤ (run bs iters lat el).timing.sample_count →
      (run bs iters lat el).timing.min_latency_ns ≤
        (run bs iters lat el).timing.avg_latency_ns ∧
      (run bs iters lat el).timing.avg_latency_ns ≤
        (run bs iters lat el).timing.max_latency_ns ∧
      0 ≤ (run bs iters lat el).timing.variance_ns) ∧
    ((run bs iters lat el).timing.sample_count ≤ 1 →
      (run bs iters lat el).timing.variance_ns = 0 ∧
      (run bs iters lat el).timing.std_deviation_ns = 0) ∧
    (1 ≤ (run_continuous bs2 ipr mr md nsAt lat2 re fuel).timing.sample_count →
      (run_continuous bs2 ipr mr md nsAt lat2 re fuel).timing.min_latency_ns ≤
        (run_continuous bs2 ipr mr md nsAt lat2 re fuel).timing.avg_latency_ns ∧
      (run_continuous bs2 ipr mr md nsAt lat2 re fuel).timing.avg_latency_ns ≤
        (run_continuous bs2 ipr mr md nsAt lat2 re fuel).timing.max_latency_ns ∧
      0 ≤ (run_continuous bs2 ipr mr md nsAt lat2 re fuel).timing.variance_ns) ∧
    ((run_continuous bs2 ipr mr md nsAt lat2 re fuel).timing.sample_count ≤ 1 →
      (run_continuous bs2 ipr mr md nsAt lat2 re fuel).timing.variance_ns = 0 ∧
      (run_continuous bs2 ipr mr md nsAt lat2 re fuel).timing.std_deviation_ns = 0) := by
  have hrun_eq : run bs iters lat el = Results.zeroed ∨
      (iters ≠ 0 ∧ run bs iters lat el =
        run_with_buffer (List.replicate bs 0) bs iters lat el) := by
    by_cases hbs : bs = 0
    · left
      unfold run
      rw [if_pos hbs]
    · by_cases hit : iters = 0
      · left
        unfold run
        rw [if_neg hbs, if_pos hit]
      · right
        exact ⟨hit, run_valid_eq bs iters lat el hbs hit⟩
  refine ⟨?_, ?_, ?_, ?_⟩
  · intro h
    rcases hrun_eq with hz | ⟨hit, hv⟩
    · rw [hz] at h
      exact absurd h (by decide)
    · rw [hv] at h ⊢
      rw [run_with_buffer_sample_count] at h
      have hm := run_with_buffer_min_avg_max (List.replicate bs 0) bs iters lat el h
      refine ⟨hm.1, hm.2, ?_⟩
      rw [run_with_buffer_variance_eq]
      exact calculate_variance_nonneg _ _
  · intro h
    rcases hrun_eq with hz | ⟨hit, hv⟩
    · rw [hz]
      exact ⟨rfl, rfl⟩
    · rw [hv] at h ⊢
      rw [run_with_buffer_sample_count] at h
      constructor
      · rw [run_with_buffer_variance_eq]
        apply calculate_variance_of_le_one
        simpa [latencyList] using h
      · rw [run_with_buffer_std_eq]
        apply calculate_std_deviation_of_le_one
        simpa [latencyList] using h
  · intro h
    by_cases hval : bs2 = 0 ∨ ipr = 0 ∨ (mr = 0 ∧ md ≤ 0)
    · rw [run_continuous_invalid_eq bs2 ipr mr md nsAt lat2 re fuel hval] at h
      have h0 : (contInit bs2 ipr).timing.sample_count = 0 := rfl
      omega
    · have hbs2 : bs2 ≠ 0 := fun hh => hval (Or.inl hh)
      have hip2 : ipr ≠ 0 := fun hh => hval (Or.inr (Or.inl hh))
      have hmd3 : ¬ (mr = 0 ∧ md ≤ 0) := fun hh => hval (Or.inr (Or.inr hh))
      have hvalid := run_continuous_valid bs2 ipr mr md nsAt lat2 re fuel hbs2 hip2 hmd3
      have hinv := contLoop_inv bs2 ipr mr md nsAt lat2 re
        (Nat.one_le_iff_ne_zero.mpr hip2) fuel (contStart bs2) (contStart_inv bs2)
      set s := (contLoop bs2 ipr mr md nsAt lat2 re fuel (contStart bs2)).1 with hs
      rw [hvalid] at h ⊢
      by_cases hc : 0 < s.completed
      · have htim := contAggregate_timing_pos bs2 ipr s hc
        rw [contFinalize_timing, htim]
        obtain ⟨hlen, herr, hbuf, hmm⟩ := hinv
        have hb1 : s.minL * (s.runAvgs.length : ℚ) ≤ s.runAvgs.sum :=
          mul_length_le_sum _ _ (fun x hx => (hmm x hx).1)
        have hb2 : s.runAvgs.sum ≤ s.maxL * (s.runAvgs.length : ℚ) :=
          sum_le_mul_length _ _ (fun x hx => (hmm x hx).2)
        rw [hlen] at hb1 hb2
        have hpos : (0 : ℚ) < (s.completed : ℚ) := by exact_mod_cast hc
        refine ⟨?_, ?_, ?_⟩
        · show s.minL ≤ s.runAvgs.sum / (s.completed : ℚ)
          rw [le_div_iff₀ hpos]
          exact hb1
        · show s.runAvgs.sum / (s.completed : ℚ) ≤ s.maxL
          rw [div_le_iff₀ hpos]
          exact hb2
        · exact calculate_variance_nonneg _ _
      · rw [contFinalize_sample_count_zero bs2 ipr s hc] at h
        exact absurd h (by decide)
  · intro h
    by_cases hval : bs2 = 0 ∨ ipr = 0 ∨ (mr = 0 ∧ md ≤ 0)
    · rw [run_continuous_invalid_eq bs2 ipr mr md nsAt lat2 re fuel hval]
      exact ⟨rfl, rfl⟩
    · have hbs2 : bs2 ≠ 0 := fun hh => hval (Or.inl hh)
      have hip2 : ipr ≠ 0 := fun hh => hval (Or.inr (Or.inl hh))
      have hmd3 : ¬ (mr = 0 ∧ md ≤ 0) := fun hh => hval (Or.inr (Or.inr hh))
      have hvalid := run_continuous_valid bs2 ipr mr md nsAt lat2 re fuel hbs2 hip2 hmd3
      have hinv := contLoop_inv bs2 ipr mr md nsAt lat2 re
        (Nat.one_le_iff_ne_zero.mpr hip2) fuel (contStart bs2) (contStart_inv bs2)
      set s := (contLoop bs2 ipr mr md nsAt lat2 re fuel (contStart bs2)).1 with hs
      rw [hvalid] at h ⊢
      by_cases hc : 0 < s.completed
      · have hc1 : s.completed = 1 := by
          rw [contFinalize_sample_count bs2 ipr s hc] at h
          omega
        have htim := contAggregate_timing_pos bs2 ipr s hc
        rw [contFinalize_timing, htim]
        have hlen1 : s.runAvgs.length ≤ 1 := by
          rw [hinv.1, hc1]
        exact ⟨calculate_variance_of_le_one _ _ hlen1,
          calculate_std_deviation_of_le_one _ _ hlen1⟩
      · rw [contFinalize_timing, contAggregate_neg bs2 ipr s hc]
        exact ⟨rfl, rfl⟩

/-- Witness for C2: a two-iteration run and a two-run continuous session
for the `sample_count >= 1` bounds; a one-iteration run and a one-run
session for the dispersion-is-zero case. -/
theorem results_timing_invariants_witness :
    ((run 1 2 (fun _ => 5) 1).timing.min_latency_ns ≤
        (run 1 2 (fun _ => 5) 1).timing.avg_latency_ns ∧
      (run 1 2 (fun _ => 5) 1).timing.avg_latency_ns ≤
        (run 1 2 (fun _ => 5) 1).timing.max_latency_ns ∧
      0 ≤ (run 1 2 (fun _ => 5) 1).timing.variance_ns) ∧
    ((run 1 1 (fun _ => 5) 1).timing.variance_ns = 0 ∧
      (run 1 1 (fun _ => 5) 1).timing.std_deviation_ns = 0) ∧
    ((run_continuous 1 1 2 0 (fun _ => 0) (fun _ _ => 5)
        (fun _ => 1) 3).timing.min_latency_ns ≤
      (run_continuous 1 1 2 0 (fun _ => 0) (fun _ _ => 5)
        (fun _ => 1) 3).timing.avg_latency_ns ∧
      (run_continuous 1 1 2 0 (fun _ => 0) (fun _ _ => 5)
        (fun _ => 1) 3).timing.avg_latency_ns ≤
      (run_continuous 1 1 2 0 (fun _ => 0) (fun _ _ => 5)
        (fun _ => 1) 3).timing.max_latency_ns ∧
      0 ≤ (run_continuous 1 1 2 0 (fun _ => 0) (fun _ _ => 5)
        (fun _ => 1) 3).timing.variance_ns) ∧
    ((run_continuous 1 1 1 0 (fun _ => 0) (fun _ _ => 5)
        (fun _ => 1) 2).timing.variance_ns = 0 ∧
      (run_continuous 1 1 1 0 (fun _ => 0) (fun _ _ => 5)
        (fun _ => 1) 2).timing.std_deviation_ns = 0) :=
  ⟨(results_timing_invariants 1 2 (fun _ => 5) 1 1 1 2 0 (fun _ => 0) (fun _ _ => 5)
      (fun _ => 1) 3).1 (by decide),
   (results_timing_invariants 1 1 (fun _ => 5) 1 1 1 2 0 (fun _ => 0) (fun _ _ => 5)
      (fun _ => 1) 3).2.1 (by decide),
   (results_timing_invariants 1 2 (fun _ => 5) 1 1 1 2 0 (fun _ => 0) (fun _ _ => 5)
      (fun _ => 1) 3).2.2.1 (by decide),
   (results_timing_invariants 1 1 (fun _ => 5) 1 1 1 1 0 (fun _ => 0) (fun _ _ => 5)
      (fun _ => 1) 2).2.2.2 (by decide)⟩

end MemoryBenchmark
